import Mathlib

/-!
Verification of the scheduling / consistency / trend computation core of the
PesoMed (DoseCheck) health-tracking application (`src/app.js`).

Modelling conventions, shared by every definition below:

* A local calendar day is its day number (an `Int`); day 0 is a Sunday, so the
  JavaScript `Date.getDay()` weekday of day `d` is `d % 7` (mathematical mod,
  always in `0..6`).  The `YYYY-MM-DD` date-key strings of the source compare
  lexicographically exactly as their day numbers compare, so date keys are
  modelled directly as day numbers.
* An instant is a calendar day together with a wall-clock minute of that day
  (`Instant`); `toMin` is its total minute count, mirroring `Date.getTime()`
  up to the fixed scale from milliseconds to minutes.  Local time is modelled
  with a fixed UTC offset, so `addDays` is a fixed 1440-minute shift.
* A JavaScript number that may be missing or not-a-number is modelled by
  `JsVal` (`absent` = `undefined`, `nan` = `NaN`, `num q` = the finite
  rational `q`).  Finite numeric values are rationals.
* JavaScript `Array.prototype.sort` (stable since ES2019) is modelled by
  `List.mergeSort`, which is also stable.
* `Set` lookups over date-key strings are modelled by list membership, which
  has the same semantics (duplicates in the underlying list do not matter).
-/

namespace PesoMed

/-- A JavaScript numeric field value: `undefined`, `NaN`, or a finite number. -/
inductive JsVal where
  | absent
  | nan
  | num (q : ℚ)
deriving DecidableEq

/-- The nullish-coalescing operator `x ?? d` for a numeric default `d`:
only `undefined`/`null` fall back to the default. -/
def JsVal.nullishOr (v : JsVal) (d : ℚ) : JsVal :=
  match v with
  | .absent => .num d
  | x => x

/-- Source `clampNumber(value, min, max)` (`src/app.js:78`):
`Number(value)` of a non-numeric value is `NaN` and yields `min`;
otherwise the value is clamped into `[min, max]`. -/
def clampNumber (value : JsVal) (min max : ℚ) : ℚ :=
  match value with
  | .num n => Min.min max (Max.max min n)
  | _ => min

/-- Defaults from the `DEFAULTS` object (`src/app.js:32`). -/
def DEFAULTS_injectionDayOfWeek : ℚ := 6

def DEFAULTS_injectionTime : Int × Int := (9, 51)

def DEFAULTS_weighDaysOfWeek : List ℚ := [1, 3, 5]

def DEFAULTS_measureReminderEveryDays : ℚ := 14

/-- The schedule-relevant slice of the persisted settings object.
`weighDaysOfWeek = none` models a missing / non-array field,
`injectionTime = none` a missing time string. -/
structure Settings where
  injectionDayOfWeek : JsVal
  injectionTime : Option (Int × Int)
  weighDaysOfWeek : Option (List ℚ)
  measureReminderEveryDays : JsVal
deriving DecidableEq

/-- JavaScript `Date.getDay()` for a day number: day 0 is a Sunday. -/
def dow (d : Int) : Int := d % 7

/-- Source `startOfWeekMonday` (`src/app.js:1271`): Monday-anchored start of
the week containing `d`; Sunday maps to offset 6. -/
def startOfWeekMonday (d : Int) : Int := d - (dow d + 6) % 7

/-- An instant: a calendar day plus the wall-clock minute of that day. -/
structure Instant where
  day : Int
  mins : Int
deriving DecidableEq

/-- Total minutes of an instant, mirroring `Date.getTime()` (scaled). -/
def Instant.toMin (t : Instant) : Int := t.day * 1440 + t.mins

/-- A weight record, reduced to the fields the computation core reads:
its timestamp in minutes and `weightKg`. -/
structure WeightRecord where
  t : Int
  weightKg : ℚ
deriving DecidableEq, Inhabited

/-- An injection record, reduced to the fields the computation core reads:
its timestamp in minutes and the (possibly missing) `symptoms.nausea` score. -/
structure InjectionRecord where
  t : Int
  nausea : JsVal
deriving DecidableEq

/-- The checklist cache built by `buildChecklistCache` (`src/app.js:1371`):
date-key sets for the three record kinds, the `dateISO` of the most recent
measurement, and the raw injection list (used by the local insight rules). -/
structure Cache where
  weightKeys : List Int
  injectionKeys : List Int
  measuresKeys : List Int
  lastMeasures : Option Int
  injections : List InjectionRecord
deriving DecidableEq

/-- The inner 7-day scan shared by `countStreakInjections` (`src/app.js:115`)
and `renderWeeklyConsistency` (`src/app.js:147`): the first day of the week
starting at `weekStart` whose weekday strictly equals `q`. -/
def findDayWithDow (weekStart : Int) (q : ℚ) : Option Int :=
  ((List.range 7).map (fun (j : ℕ) => weekStart + (j : Int))).find?
    (fun d => decide ((dow d : ℚ) = q))

/-- The injection weekday every consumer derives from the settings:
`clampNumber(settings.injectionDayOfWeek ?? DEFAULTS.injectionDayOfWeek, 0, 6)`. -/
def injDowOf (settings : Settings) : ℚ :=
  clampNumber (settings.injectionDayOfWeek.nullishOr DEFAULTS_injectionDayOfWeek) 0 6

/-- Result record of the weekly consistency computation. -/
structure WeeklyConsistency where
  expectedWeighKeys : List Int
  injKey : Option Int
  expectedWeights : Nat
  doneWeights : Nat
  expectedInj : Nat
  doneInj : Nat
  expectedPoints : Nat
  donePoints : Nat
  pct : Int
deriving DecidableEq

/-- The pure computational core of `renderWeeklyConsistency`
(`src/app.js:131-172`), for the week `weekOffset` weeks before the week of
`today`: expected weigh-in days of that week, the week's injection day,
done/expected counts and the rounded adherence percentage. -/
def weeklyConsistency (cache : Cache) (settings : Settings) (weekOffset : ℚ)
    (today : Int) : WeeklyConsistency :=
  let offset : Int := Max.max 0 ⌊weekOffset⌋
  let base := startOfWeekMonday today
  let start := base - 7 * offset
  let weighDows := settings.weighDaysOfWeek.getD DEFAULTS_weighDaysOfWeek
  let expectedWeighKeys :=
    ((List.range 7).map (fun (i : ℕ) => start + (i : Int))).filter
      (fun d => decide ((dow d : ℚ) ∈ weighDows))
  let injDow := injDowOf settings
  let injKey := findDayWithDow start injDow
  let expectedWeights := expectedWeighKeys.length
  let doneWeights :=
    (expectedWeighKeys.filter (fun k => decide (k ∈ cache.weightKeys))).length
  let expectedInj : Nat := if injKey.isSome then 1 else 0
  let doneInj : Nat :=
    match injKey with
    | some k => if k ∈ cache.injectionKeys then 1 else 0
    | none => 0
  let expectedPoints := expectedWeights + (if expectedInj ≠ 0 then 2 else 0)
  let donePoints := doneWeights + (if doneInj ≠ 0 then 2 else 0)
  let pct : Int :=
    if expectedPoints ≠ 0 then
      round (((donePoints : ℚ) / (expectedPoints : ℚ)) * 100)
    else 0
  ⟨expectedWeighKeys, injKey, expectedWeights, doneWeights, expectedInj,
    doneInj, expectedPoints, donePoints, pct⟩

/-- Loop body of `countStreakWeights` (`src/app.js:88-104`), recursing on the
remaining lookback budget: walk backward day by day from `d`; a scheduled day
with a matching weight key extends the streak, the first scheduled day without
one stops it, and non-scheduled days are skipped. -/
def countStreakWeightsGo (weighDows : List ℚ) (weightKeys : List Int)
    (d : Int) : Nat → Nat
  | 0 => 0
  | n + 1 =>
    if (dow d : ℚ) ∈ weighDows then
      if d ∈ weightKeys then countStreakWeightsGo weighDows weightKeys (d - 1) n + 1
      else 0
    else countStreakWeightsGo weighDows weightKeys (d - 1) n

/-- Source `countStreakWeights(cache, settings, maxLookbackDays = 120)`
(`src/app.js:88`), scanning back from `today`. -/
def countStreakWeights (cache : Cache) (settings : Settings) (today : Int)
    (maxLookbackDays : Nat) : Nat :=
  countStreakWeightsGo (settings.weighDaysOfWeek.getD DEFAULTS_weighDaysOfWeek)
    cache.weightKeys today maxLookbackDays

/-- Loop body of `countStreakInjections` (`src/app.js:106-129`), recursing on
the remaining week budget: each week locate the day matching the injection
weekday; no such day or a missing injection key stops the streak. -/
def countStreakInjectionsGo (injKeys : List Int) (injDow : ℚ)
    (weekStart : Int) : Nat → Nat
  | 0 => 0
  | n + 1 =>
    match findDayWithDow weekStart injDow with
    | none => 0
    | some k =>
      if k ∈ injKeys then countStreakInjectionsGo injKeys injDow (weekStart - 7) n + 1
      else 0

/-- Source `countStreakInjections(cache, settings, maxWeeks = 52)`
(`src/app.js:106`), scanning back week by week from the week of `today`. -/
def countStreakInjections (cache : Cache) (settings : Settings) (today : Int)
    (maxWeeks : Nat) : Nat :=
  countStreakInjectionsGo cache.injectionKeys (injDowOf settings)
    (startOfWeekMonday today) maxWeeks

/-- Source `computeMeasuresDueDateKey`'s cadence expression (`src/app.js:1441`):
`Math.max(7, Math.floor(Number(s.measureReminderEveryDays || DEFAULTS.…)))`.
`||` sends `undefined`, `NaN` and `0` to the default. -/
def measureEveryDays (settings : Settings) : Int :=
  Max.max 7 ⌊(match settings.measureReminderEveryDays with
    | .num q => if q = 0 then DEFAULTS_measureReminderEveryDays else q
    | _ => DEFAULTS_measureReminderEveryDays)⌋

/-- Source `computeMeasuresDueDateKey(cache, settings, todayKey)`
(`src/app.js:1440-1452`): with no prior measurement the due date is today;
otherwise it is the last measurement plus the cadence, pulled forward to
today once overdue. -/
def computeMeasuresDueDateKey (cache : Cache) (settings : Settings)
    (todayKey : Int) : Int :=
  let every := measureEveryDays settings
  match cache.lastMeasures with
  | none => todayKey
  | some base =>
    let due := base + every
    if due < todayKey then todayKey else due

/-- Checklist item kinds. -/
inductive ItemKind where
  | weight
  | injection
  | measures
deriving DecidableEq

/-- Checklist item status. -/
inductive ItemStatus where
  | pending
  | done
  | late
deriving DecidableEq

/-- A derived checklist item (`src/app.js:1468-1503`).  The source's measures
item carries no `warnAfterCutoff` property; reading it yields `undefined`,
i.e. false, which is how it is modelled. -/
structure ChecklistItem where
  kind : ItemKind
  dateKey : Int
  required : Bool
  done : Bool
  warnAfterCutoff : Bool
  status : ItemStatus
deriving DecidableEq

/-- Source `isAfterTimeHHmm(date, timeHHmm)` (`src/app.js:1364`): is the
instant at or after the given wall-clock time of its own calendar day. -/
def isAfterTimeHHmm (date : Instant) (hh mi : Int) : Bool :=
  decide (date.toMin ≥ date.day * 1440 + (hh * 60 + mi))

/-- Source `getStatus(item, nowDate)` (`src/app.js:1420`). -/
def getStatus (item : ChecklistItem) (nowDate : Instant) : ItemStatus :=
  if item.done then .done
  else if item.dateKey < nowDate.day then .late
  else .pending

/-- Source `buildChecklistForDate(date, cache, settings, nowDate)`
(`src/app.js:1455-1512`): a required weight item on configured weigh days, a
required injection item when the weekday strictly equals
`Number(settings.injectionDayOfWeek)` (no clamping at this call site), and an
optional measures item on the cadence due date; statuses assigned at the end. -/
def buildChecklistForDate (date : Int) (c : Cache) (s : Settings)
    (nowDate : Instant) : List ChecklistItem :=
  let dateKey := date
  let todayKey := nowDate.day
  let d := dow date
  let weightItems : List ChecklistItem :=
    match s.weighDaysOfWeek with
    | some l =>
      if (d : ℚ) ∈ l then
        let done := decide (dateKey ∈ c.weightKeys)
        [⟨.weight, dateKey, true, done,
          (decide (dateKey = todayKey) && isAfterTimeHHmm nowDate 12 0 && !done),
          .pending⟩]
      else []
    | none => []
  let injectionItems : List ChecklistItem :=
    match s.injectionDayOfWeek with
    | .num q =>
      if (d : ℚ) = q then
        let done := decide (dateKey ∈ c.injectionKeys)
        [⟨.injection, dateKey, true, done,
          (decide (dateKey = todayKey) && isAfterTimeHHmm nowDate 12 0 && !done),
          .pending⟩]
      else []
    | _ => []
  let measuresDueKey := computeMeasuresDueDateKey c s todayKey
  let measuresItems : List ChecklistItem :=
    if dateKey = measuresDueKey then
      [⟨.measures, dateKey, false, decide (dateKey ∈ c.measuresKeys), false,
        .pending⟩]
    else []
  (weightItems ++ injectionItems ++ measuresItems).map
    (fun it => { it with status := getStatus it nowDate })

/-- Source `buildOverdueChecklist(daysBack = 7)` (`src/app.js:1538-1559`):
scan the days `today-1 .. today-daysBack`, keep only required, not-done items,
force their status to `late` and their cutoff warning off, and sort the result
most-recent-first by date key (a stable sort, as in JavaScript). -/
def buildOverdueChecklist (daysBack : Nat) (c : Cache) (s : Settings)
    (nowDate : Instant) : List ChecklistItem :=
  let base := nowDate.day
  let overdue :=
    (List.range daysBack).flatMap (fun (i : ℕ) =>
      ((buildChecklistForDate (base - ((i : Int) + 1)) c s nowDate).filter
        (fun it => it.required && !it.done)).map
        (fun it => { it with status := ItemStatus.late, warnAfterCutoff := false }))
  overdue.mergeSort (fun a b => decide (b.dateKey ≤ a.dateKey))

/-- Source `pickWeightClosestAtOrBefore(weightsDesc, targetDate)`
(`src/app.js:1017-1025`): first record of the descending list whose timestamp
is at or before the target. -/
def pickWeightClosestAtOrBefore (weightsDesc : List WeightRecord)
    (target : Int) : Option WeightRecord :=
  weightsDesc.find? (fun w => decide (w.t ≤ target))

/-- Result of `computeWeightDeltas`. -/
structure WeightDeltas where
  last : Option WeightRecord
  d7 : Option ℚ
  d14 : Option ℚ
  d30 : Option ℚ
deriving DecidableEq

/-- Source `computeWeightDeltas(weightsDesc)` (`src/app.js:1033-1058`):
deltas of the most recent weight against the closest records at or before
7, 14 and 30 days earlier (1440 minutes per day). -/
def computeWeightDeltas (weightsDesc : List WeightRecord) : WeightDeltas :=
  match weightsDesc with
  | [] => ⟨none, none, none, none⟩
  | last :: _ =>
    let t7 := last.t - 7 * 1440
    let t14 := last.t - 14 * 1440
    let t30 := last.t - 30 * 1440
    let d := fun (w : Option WeightRecord) =>
      w.map (fun w => last.weightKg - w.weightKg)
    ⟨some last,
      d (pickWeightClosestAtOrBefore weightsDesc t7),
      d (pickWeightClosestAtOrBefore weightsDesc t14),
      d (pickWeightClosestAtOrBefore weightsDesc t30)⟩

/-- Source `daysBetween(a, b)` (`src/app.js:670`): absolute difference of two
timestamps in (fractional) days; timestamps are in minutes here. -/
def daysBetween (a b : Int) : ℚ := |((a - b : Int) : ℚ)| / 1440

/-- Source `safeRatio(numerator, denominator)` (`src/app.js:2623`). -/
def safeRatio (numerator denominator : ℚ) : ℚ :=
  if denominator = 0 then 0 else numerator / denominator

/-- Result of `computeInjectionRegularity` (notes text omitted). -/
structure InjectionRegularity where
  count : Nat
  meanDays : Option ℚ
  onTimeRate : Option ℚ
deriving DecidableEq

/-- Source `computeInjectionRegularity(injectionsDesc)` (`src/app.js:2628-2652`):
mean inter-injection interval and the fraction of intervals within 6 to 8
days; explicit nulls when fewer than 2 records exist. -/
def computeInjectionRegularity (injectionsDesc : List InjectionRecord) :
    InjectionRegularity :=
  if injectionsDesc.length < 2 then ⟨injectionsDesc.length, none, none⟩
  else
    let times := (injectionsDesc.map (fun i => i.t)).mergeSort
      (fun a b => decide (a ≤ b))
    let intervals := (times.zip times.tail).map (fun p => daysBetween p.2 p.1)
    let mean := (intervals.foldl (· + ·) 0) / (intervals.length : ℚ)
    let onTime := (intervals.filter (fun d => decide (6 ≤ d ∧ d ≤ 8))).length
    let onTimeRate := safeRatio (onTime : ℚ) (intervals.length : ℚ)
    ⟨injectionsDesc.length, some mean, some onTimeRate⟩

/-- Result of `computeWeightTrend` (notes text omitted). -/
structure WeightTrend where
  start : Option WeightRecord
  stop : Option WeightRecord
  deltaKg : Option ℚ
  perWeekKg : Option ℚ
deriving DecidableEq

/-- Source `computeWeightTrend(weightsDesc)` (`src/app.js:2654-2675`):
first-to-last delta over the ascending window and its per-week slope, with
elapsed days clamped to at least 1; explicit nulls below 2 records. -/
def computeWeightTrend (weightsDesc : List WeightRecord) : WeightTrend :=
  if weightsDesc.length < 2 then ⟨none, none, none, none⟩
  else
    let asc := weightsDesc.mergeSort (fun a b => decide (a.t ≤ b.t))
    let start := asc.headI
    let stop := asc.getLastI
    let days := Max.max 1 (daysBetween stop.t start.t)
    let deltaKg := stop.weightKg - start.weightKg
    let perWeekKg := deltaKg / (days / 7)
    ⟨some start, some stop, some deltaKg, some perWeekKg⟩

/-- JavaScript truncation toward zero, for the remainder operator. -/
def qtrunc (x : ℚ) : Int := if 0 ≤ x then ⌊x⌋ else ⌈x⌉

/-- The JavaScript `%` operator on numbers: `a - b * trunc(a / b)`. -/
def jsMod (a b : ℚ) : ℚ := a - b * (qtrunc (a / b) : ℚ)

/-- Source `computeNextScheduledDateTime(settings, fromDate)`
(`src/app.js:1297-1308`): the next instant matching the configured injection
weekday and time, strictly after `fromDate` when today's slot has passed
(`delta` bumped from 0 to 7). -/
def computeNextScheduledDateTime (settings : Settings) (fromDate : Instant) :
    Instant :=
  let dowQ := injDowOf settings
  let hm := settings.injectionTime.getD DEFAULTS_injectionTime
  let currentDow := dow fromDate.day
  let delta : ℚ := jsMod (dowQ - (currentDow : ℚ) + 7) 7
  let candidate : Instant := ⟨fromDate.day, hm.1 * 60 + hm.2⟩
  let delta : ℚ :=
    if delta = 0 ∧ candidate.toMin ≤ fromDate.toMin then 7 else delta
  ⟨fromDate.day + ⌊delta⌋, hm.1 * 60 + hm.2⟩

/-- The `symptoms?.nausea ?? 0` score, clamped into `0..10`
(`src/app.js:524-525`). -/
def nauseaScore (r : InjectionRecord) : ℚ :=
  clampNumber (r.nausea.nullishOr 0) 0 10

/-- The recurring-high-symptom insight rule of `buildLocalInsights`
(`src/app.js:522-534`): `true` exactly when the rule pushes its danger item,
i.e. the two heads of the timestamp-descending sort both score at least 7. -/
def recurringHighNausea (injections : List InjectionRecord) : Bool :=
  let injDesc := injections.mergeSort (fun x y => decide (y.t ≤ x.t))
  match injDesc with
  | x :: y :: _ => decide (7 ≤ nauseaScore x) && decide (7 ≤ nauseaScore y)
  | _ => false

/-- The record lists handed to `computeScheduleAdherenceForRange` as `data`. -/
structure AdherenceData where
  weights : List WeightRecord
  injections : List InjectionRecord
deriving DecidableEq

/-- Source `uniqueDateKeysFromDateTimeISO(items)` (`src/app.js:1881`), as the
list of day numbers of the given timestamps (set semantics coincide with list
membership). -/
def uniqueDateKeysFromDateTimeISO (ts : List Int) : List Int :=
  ts.map (fun t => t.fdiv 1440)

/-- Result of `computeScheduleAdherenceForRange`. -/
structure RangeAdherence where
  expectedWeights : Nat
  doneWeights : Nat
  expectedInj : Nat
  doneInj : Nat
  expectedPoints : Nat
  donePoints : Nat
  pct : Int
deriving DecidableEq

/-- Source `computeScheduleAdherenceForRange(rangeDays, settings, data)`
(`src/app.js:1890-1924`): expected and done weigh-ins and injections over the
trailing range ending today, scored weigh-in = 1 point, injection = 2. -/
def computeScheduleAdherenceForRange (rangeDays : Nat) (settings : Settings)
    (data : AdherenceData) (today : Int) : RangeAdherence :=
  let start := today - (Max.max 1 (rangeDays : Int) - 1)
  let weighDows := settings.weighDaysOfWeek.getD DEFAULTS_weighDaysOfWeek
  let injDow := injDowOf settings
  let weightKeys := uniqueDateKeysFromDateTimeISO (data.weights.map (fun w => w.t))
  let injKeys := uniqueDateKeysFromDateTimeISO (data.injections.map (fun i => i.t))
  let days := (List.range rangeDays).map (fun (i : ℕ) => start + (i : Int))
  let expectedWeights := (days.filter (fun d => decide ((dow d : ℚ) ∈ weighDows))).length
  let doneWeights := (days.filter (fun d =>
    decide ((dow d : ℚ) ∈ weighDows) && decide (d ∈ weightKeys))).length
  let expectedInj := (days.filter (fun d => decide ((dow d : ℚ) = injDow))).length
  let doneInj := (days.filter (fun d =>
    decide ((dow d : ℚ) = injDow) && decide (d ∈ injKeys))).length
  let expectedPoints := expectedWeights + expectedInj * 2
  let donePoints := doneWeights + doneInj * 2
  let pct : Int :=
    if expectedPoints ≠ 0 then
      round (((donePoints : ℚ) / (expectedPoints : ℚ)) * 100)
    else 0
  ⟨expectedWeights, doneWeights, expectedInj, doneInj, expectedPoints,
    donePoints, pct⟩

/-! ### Theorems -/

/-- C4: for every today and cadence, the next measurement due date is the last
measurement plus the cadence, pulled forward to today once strictly overdue
(it sticks to today, never receding into the past); with no prior measurement
it is today; and the cadence used is an integer, floored, and at least 7. -/
theorem computeMeasuresDueDateKey_spec (cache : Cache) (settings : Settings)
    (today : Int) :
    7 ≤ measureEveryDays settings
    ∧ (∀ q : ℚ, settings.measureReminderEveryDays = .num q → q ≠ 0 →
        measureEveryDays settings = Max.max 7 ⌊q⌋)
    ∧ (cache.lastMeasures = none →
        computeMeasuresDueDateKey cache settings today = today)
    ∧ (∀ b, cache.lastMeasures = some b →
        computeMeasuresDueDateKey cache settings today
          = Max.max today (b + measureEveryDays settings))
    ∧ today ≤ computeMeasuresDueDateKey cache settings today := by
  refine ⟨le_max_left _ _, ?_, ?_, ?_, ?_⟩
  · intro q hq hq0
    simp [measureEveryDays, hq, hq0]
  · intro h
    simp [computeMeasuresDueDateKey, h]
  · intro b hb
    simp only [computeMeasuresDueDateKey, hb]
    rcases lt_or_le (b + measureEveryDays settings) today with h | h
    · rw [if_pos h, max_eq_left h.le]
    · rw [if_neg (not_lt.mpr h), max_eq_right h]
  · unfold computeMeasuresDueDateKey
    rcases cache.lastMeasures with _ | b
    · exact le_refl _
    · dsimp only
      split
      · exact le_refl _
      · omega

/-- Witness for C4 at a concrete snapshot: last measurement on day 10,
cadence 20 days, today day 24. -/
theorem computeMeasuresDueDateKey_spec_witness :
    7 ≤ measureEveryDays ⟨.absent, none, none, .num 20⟩
    ∧ measureEveryDays ⟨.absent, none, none, .num 20⟩ = Max.max 7 ⌊(20 : ℚ)⌋
    ∧ computeMeasuresDueDateKey ⟨[], [], [], some 10, []⟩
        ⟨.absent, none, none, .num 20⟩ 24
        = Max.max 24 (10 + measureEveryDays ⟨.absent, none, none, .num 20⟩)
    ∧ (24 : Int) ≤ computeMeasuresDueDateKey ⟨[], [], [], some 10, []⟩
        ⟨.absent, none, none, .num 20⟩ 24 := by
  have h := computeMeasuresDueDateKey_spec ⟨[], [], [], some 10, []⟩
    ⟨.absent, none, none, .num 20⟩ 24
  exact ⟨h.1, h.2.1 20 rfl (by norm_num), h.2.2.2.1 10 rfl, h.2.2.2.2⟩

/-- C7: the injection-regularity and weight-trend computations return explicit
null results on fewer than 2 records; on 2 or more records all their outputs
are defined, and the weight trend divides by an elapsed-days value clamped to
at least 1. -/
theorem insufficientData_null_spec (inj : List InjectionRecord)
    (w : List WeightRecord) :
    (inj.length < 2 →
      (computeInjectionRegularity inj).meanDays = none
      ∧ (computeInjectionRegularity inj).onTimeRate = none)
    ∧ (2 ≤ inj.length →
      (∃ m, (computeInjectionRegularity inj).meanDays = some m)
      ∧ ∃ r, (computeInjectionRegularity inj).onTimeRate = some r)
    ∧ (w.length < 2 → computeWeightTrend w = ⟨none, none, none, none⟩)
    ∧ (2 ≤ w.length →
      ∃ dk e, (computeWeightTrend w).deltaKg = some dk ∧ (1 : ℚ) ≤ e
        ∧ (computeWeightTrend w).perWeekKg = some (dk / (e / 7))) := by
  refine ⟨?_, ?_, ?_, ?_⟩
  · intro h
    simp [computeInjectionRegularity, if_pos h]
  · intro h
    rw [computeInjectionRegularity, if_neg (by omega)]
    exact ⟨⟨_, rfl⟩, ⟨_, rfl⟩⟩
  · intro h
    simp [computeWeightTrend, if_pos h]
  · intro h
    rw [computeWeightTrend, if_neg (by omega)]
    exact ⟨_, _, rfl, le_max_left _ _, rfl⟩

/-- Witness for C7: a single record yields nulls; two records seven days
apart yield a defined mean interval and slope. -/
theorem insufficientData_null_spec_witness :
    (computeInjectionRegularity [⟨0, .num 0⟩]).meanDays = none
    ∧ (∃ m, (computeInjectionRegularity
        [⟨7 * 1440, .num 0⟩, ⟨0, .num 0⟩]).meanDays = some m)
    ∧ computeWeightTrend [⟨0, 80⟩] = ⟨none, none, none, none⟩
    ∧ ∃ dk e, (computeWeightTrend [⟨7 * 1440, 79⟩, ⟨0, 80⟩]).deltaKg = some dk
        ∧ (1 : ℚ) ≤ e
        ∧ (computeWeightTrend [⟨7 * 1440, 79⟩, ⟨0, 80⟩]).perWeekKg
            = some (dk / (e / 7)) := by
  refine ⟨?_, ?_, ?_, ?_⟩
  · exact (insufficientData_null_spec [⟨0, .num 0⟩] []).1 (by decide) |>.1
  · exact (insufficientData_null_spec [⟨7 * 1440, .num 0⟩, ⟨0, .num 0⟩] []).2.1
      (by decide) |>.1
  · exact (insufficientData_null_spec [] [⟨0, 80⟩]).2.2.1 (by decide)
  · exact (insufficientData_null_spec [] [⟨7 * 1440, 79⟩, ⟨0, 80⟩]).2.2.2
      (by decide)

/-- On a timestamp-descending list, `pickWeightClosestAtOrBefore` returns a
record with the greatest timestamp at or before the target, or `none` when no
record qualifies. -/
lemma pickWeightClosestAtOrBefore_spec (l : List WeightRecord)
    (hs : l.Pairwise (fun a b => b.t ≤ a.t)) (T : Int) :
    (∃ c, pickWeightClosestAtOrBefore l T = some c ∧ c ∈ l ∧ c.t ≤ T
      ∧ ∀ w ∈ l, w.t ≤ T → w.t ≤ c.t)
    ∨ (pickWeightClosestAtOrBefore l T = none ∧ ∀ w ∈ l, ¬ w.t ≤ T) := by
  induction l with
  | nil =>
    right
    simp [pickWeightClosestAtOrBefore]
  | cons x xs ih =>
    rw [List.pairwise_cons] at hs
    by_cases hxT : x.t ≤ T
    · left
      refine ⟨x, ?_, List.mem_cons_self x xs, hxT, ?_⟩
      · exact List.find?_cons_of_pos _ (by simpa using hxT)
      · intro w hw hwT
        rcases List.mem_cons.mp hw with rfl | hw
        · exact le_refl _
        · exact hs.1 w hw
    · have hskip : pickWeightClosestAtOrBefore (x :: xs) T
        = pickWeightClosestAtOrBefore xs T :=
        List.find?_cons_of_neg _ (by simpa using hxT)
      rcases ih hs.2 with ⟨c, hc, hcm, hcT, hmax⟩ | ⟨hn, hall⟩
      · left
        refine ⟨c, hskip ▸ hc, List.mem_cons_of_mem x hcm, hcT, ?_⟩
        intro w hw hwT
        rcases List.mem_cons.mp hw with rfl | hw
        · exact absurd hwT hxT
        · exact hmax w hw hwT
      · right
        refine ⟨hskip ▸ hn, ?_⟩
        intro w hw
        rcases List.mem_cons.mp hw with rfl | hw
        · exact hxT
        · exact hall w hw

/-- The specification of one horizon of `computeWeightDeltas`: either the
delta is taken against a record with the greatest timestamp at or before the
target, or no record is old enough and the delta is null. -/
def closestDeltaSpec (l : List WeightRecord) (last : WeightRecord) (T : Int)
    (res : Option ℚ) : Prop :=
  (∃ c ∈ l, c.t ≤ T ∧ (∀ w ∈ l, w.t ≤ T → w.t ≤ c.t)
    ∧ res = some (last.weightKg - c.weightKg))
  ∨ ((∀ w ∈ l, ¬ w.t ≤ T) ∧ res = none)

lemma closestDeltaSpec_of_pick (l : List WeightRecord) (last : WeightRecord)
    (hs : l.Pairwise (fun a b => b.t ≤ a.t)) (T : Int) :
    closestDeltaSpec l last T
      ((pickWeightClosestAtOrBefore l T).map
        (fun w => last.weightKg - w.weightKg)) := by
  rcases pickWeightClosestAtOrBefore_spec l hs T with
    ⟨c, hc, hcm, hcT, hmax⟩ | ⟨hn, hall⟩
  · exact Or.inl ⟨c, hcm, hcT, hmax, by rw [hc]; rfl⟩
  · exact Or.inr ⟨hall, by rw [hn]; rfl⟩

/-- C2: on a non-empty timestamp-descending weight list, each horizon delta
of `computeWeightDeltas` is the last weight minus the weight of the record
with the greatest timestamp at or before 7, 14 and 30 days (times 1440
minutes) before the last record, and null when no record is old enough. -/
theorem computeWeightDeltas_closest_spec (l : List WeightRecord)
    (last : WeightRecord) (rest : List WeightRecord) (hl : l = last :: rest)
    (hs : l.Pairwise (fun a b => b.t ≤ a.t)) :
    closestDeltaSpec l last (last.t - 7 * 1440) (computeWeightDeltas l).d7
    ∧ closestDeltaSpec l last (last.t - 14 * 1440) (computeWeightDeltas l).d14
    ∧ closestDeltaSpec l last (last.t - 30 * 1440) (computeWeightDeltas l).d30 := by
  subst hl
  refine ⟨?_, ?_, ?_⟩ <;>
    exact closestDeltaSpec_of_pick _ _ hs _

/-- Witness for C2: weight samples at days 0, -5, -9, -20 relative to the
last record.  The 7-day delta picks the -9-day sample (weight 80), giving
81 - 80 = 1, not the -5-day sample (weight 80.5). -/
theorem computeWeightDeltas_closest_spec_witness :
    closestDeltaSpec
      [⟨0, 81⟩, ⟨-5 * 1440, 80.5⟩, ⟨-9 * 1440, 80⟩, ⟨-20 * 1440, 79⟩]
      ⟨0, 81⟩ (0 - 7 * 1440)
      (computeWeightDeltas
        [⟨0, 81⟩, ⟨-5 * 1440, 80.5⟩, ⟨-9 * 1440, 80⟩, ⟨-20 * 1440, 79⟩]).d7
    ∧ (computeWeightDeltas
        [⟨0, 81⟩, ⟨-5 * 1440, 80.5⟩, ⟨-9 * 1440, 80⟩, ⟨-20 * 1440, 79⟩]).d7
      = some 1 := by
  constructor
  · exact (computeWeightDeltas_closest_spec
      [⟨0, 81⟩, ⟨-5 * 1440, 80.5⟩, ⟨-9 * 1440, 80⟩, ⟨-20 * 1440, 79⟩]
      ⟨0, 81⟩ [⟨-5 * 1440, 80.5⟩, ⟨-9 * 1440, 80⟩, ⟨-20 * 1440, 79⟩]
      rfl (by decide)).1
  · have h1 : pickWeightClosestAtOrBefore
        [⟨0, 81⟩, ⟨-5 * 1440, 80.5⟩, ⟨-9 * 1440, 80⟩, ⟨-20 * 1440, 79⟩]
        (0 - 7 * 1440) = some ⟨-9 * 1440, 80⟩ := by decide
    simp only [computeWeightDeltas, h1, Option.map_some]
    norm_num

/-- Shape of any item produced by `buildChecklistForDate`: weight and
injection items are required; the measures item is optional and never carries
the cutoff warning. -/
lemma buildChecklistForDate_shape (date : Int) (c : Cache) (s : Settings)
    (nowDate : Instant) (it : ChecklistItem)
    (h : it ∈ buildChecklistForDate date c s nowDate) :
    ((it.kind = .weight ∨ it.kind = .injection) ∧ it.required = true)
    ∨ (it.kind = .measures ∧ it.required = false
        ∧ it.warnAfterCutoff = false) := by
  unfold buildChecklistForDate at h
  simp only [List.mem_map, List.mem_append] at h
  obtain ⟨it₀, h₀, rfl⟩ := h
  rcases h₀ with (h₀ | h₀) | h₀
  · cases h' : s.weighDaysOfWeek with
    | none =>
      rw [h'] at h₀
      simp at h₀
    | some l =>
      rw [h'] at h₀
      by_cases hd : ((dow date : ℚ) ∈ l)
      · simp only [hd, if_true, List.mem_singleton] at h₀
        subst h₀
        left
        exact ⟨Or.inl rfl, rfl⟩
      · simp [hd] at h₀
  · cases h' : s.injectionDayOfWeek with
    | absent =>
      rw [h'] at h₀
      simp at h₀
    | nan =>
      rw [h'] at h₀
      simp at h₀
    | num q =>
      rw [h'] at h₀
      by_cases hd : ((dow date : ℚ) = q)
      · simp only [hd, if_true, List.mem_singleton] at h₀
        subst h₀
        left
        exact ⟨Or.inr rfl, rfl⟩
      · simp [hd] at h₀
  · by_cases hd : (date = computeMeasuresDueDateKey c s nowDate.day)
    · simp only [hd, if_true, List.mem_singleton] at h₀
      subst h₀
      right
      exact ⟨rfl, rfl, rfl⟩
    · simp [hd] at h₀

/-- Membership in `buildOverdueChecklist`: exactly the required, not-done
items of the days `today-1 .. today-daysBack`, with status forced to late and
the cutoff warning forced off. -/
lemma mem_buildOverdueChecklist_iff (daysBack : Nat) (c : Cache) (s : Settings)
    (nowDate : Instant) (it : ChecklistItem) :
    it ∈ buildOverdueChecklist daysBack c s nowDate ↔
      ∃ i < daysBack,
        ∃ it₀ ∈ buildChecklistForDate (nowDate.day - ((i : Int) + 1)) c s nowDate,
          it₀.required = true ∧ it₀.done = false
          ∧ it = { it₀ with status := ItemStatus.late, warnAfterCutoff := false } := by
  unfold buildOverdueChecklist
  rw [List.mem_mergeSort]
  simp only [List.mem_flatMap, List.mem_map, List.mem_filter, List.mem_range,
    Bool.and_eq_true, Bool.not_eq_true']
  constructor
  · rintro ⟨i, hi, it₀, ⟨hmem, hreq, hdone⟩, rfl⟩
    exact ⟨i, hi, it₀, hmem, hreq, hdone, rfl⟩
  · rintro ⟨i, hi, it₀, hmem, hreq, hdone, rfl⟩
    exact ⟨i, hi, it₀, ⟨hmem, hreq, hdone⟩, rfl⟩

/-- C10: measurement checklist items are always optional (`required = false`)
and never carry the after-cutoff warning; consequently `buildOverdueChecklist`
never returns a measures item, and a raised cutoff warning can only sit on a
weight or injection item. -/
theorem measuresItem_optional_spec (date : Int) (c : Cache) (s : Settings)
    (nowDate : Instant) :
    (∀ it ∈ buildChecklistForDate date c s nowDate, it.kind = .measures →
      it.required = false ∧ it.warnAfterCutoff = false)
    ∧ (∀ daysBack, ∀ it ∈ buildOverdueChecklist daysBack c s nowDate,
        it.kind ≠ .measures)
    ∧ (∀ it ∈ buildChecklistForDate date c s nowDate,
        it.warnAfterCutoff = true → it.kind = .weight ∨ it.kind = .injection) := by
  refine ⟨?_, ?_, ?_⟩
  · intro it hit hkind
    rcases buildChecklistForDate_shape date c s nowDate it hit with
      ⟨hk, _⟩ | ⟨_, hreq, hwarn⟩
    · rcases hk with hk | hk <;> rw [hkind] at hk <;> cases hk
    · exact ⟨hreq, hwarn⟩
  · intro daysBack it hit
    rw [mem_buildOverdueChecklist_iff] at hit
    obtain ⟨i, _, it₀, hmem, hreq, _, rfl⟩ := hit
    rcases buildChecklistForDate_shape _ c s nowDate it₀ hmem with
      ⟨hk, _⟩ | ⟨_, hreq0, _⟩
    · show it₀.kind ≠ .measures
      rcases hk with hk | hk <;> rw [hk] <;> intro hc <;> cases hc
    · rw [hreq0] at hreq
      cases hreq
  · intro it hit hwarn
    rcases buildChecklistForDate_shape date c s nowDate it hit with
      ⟨hk, _⟩ | ⟨_, _, hwarn0⟩
    · exact hk
    · rw [hwarn0] at hwarn
      cases hwarn

/-- Witness for C10 at a concrete snapshot: a Friday whose checklist holds a
required weight item and an optional measures item, with an overdue scan a
few days later. -/
theorem measuresItem_optional_spec_witness :
    ((buildChecklistForDate 5 ⟨[], [], [], some (-20), []⟩
        ⟨.num 6, none, some [1, 3, 5], .absent⟩ ⟨5, 800⟩).all
      (fun it => !(decide (it.kind = .measures)) || (!it.required && !it.warnAfterCutoff)))
    ∧ ((buildOverdueChecklist 7 ⟨[], [], [], some (-20), []⟩
        ⟨.num 6, none, some [1, 3, 5], .absent⟩ ⟨8, 100⟩).all
      (fun it => !(decide (it.kind = .measures)))) := by
  have h5 := measuresItem_optional_spec 5 ⟨[], [], [], some (-20), []⟩
    ⟨.num 6, none, some [1, 3, 5], .absent⟩ ⟨5, 800⟩
  constructor
  · rw [List.all_eq_true]
    intro it hit
    rcases h : decide (it.kind = ItemKind.measures) with _ | _
    · simp
    · have hk := of_decide_eq_true h
      have := h5.1 it hit hk
      simp [this.1, this.2]
  · rw [List.all_eq_true]
    intro it hit
    have := (measuresItem_optional_spec 5 ⟨[], [], [], some (-20), []⟩
      ⟨.num 6, none, some [1, 3, 5], .absent⟩ ⟨8, 100⟩).2.1 7 it hit
    simp [this]

/-- C5: `buildOverdueChecklist` returns exactly the required, not-done items
of the days `today-1 .. today-daysBack`, each with status forced to late and
the cutoff warning cleared, sorted most-recent-first by date key; and it is a
pure function of the snapshot, so evaluating it twice gives identical output. -/
theorem buildOverdueChecklist_spec (daysBack : Nat) (c : Cache) (s : Settings)
    (nowDate : Instant) :
    (∀ it, it ∈ buildOverdueChecklist daysBack c s nowDate ↔
      ∃ i < daysBack,
        ∃ it₀ ∈ buildChecklistForDate (nowDate.day - ((i : Int) + 1)) c s nowDate,
          it₀.required = true ∧ it₀.done = false
          ∧ it = { it₀ with status := ItemStatus.late, warnAfterCutoff := false })
    ∧ (∀ it ∈ buildOverdueChecklist daysBack c s nowDate,
        it.status = .late ∧ it.required = true ∧ it.done = false
        ∧ it.warnAfterCutoff = false ∧ it.dateKey < nowDate.day
        ∧ nowDate.day - daysBack ≤ it.dateKey)
    ∧ (buildOverdueChecklist daysBack c s nowDate).Pairwise
        (fun a b => b.dateKey ≤ a.dateKey)
    ∧ buildOverdueChecklist daysBack c s nowDate
        = buildOverdueChecklist daysBack c s nowDate := by
  refine ⟨mem_buildOverdueChecklist_iff daysBack c s nowDate, ?_, ?_, rfl⟩
  · intro it hit
    rw [mem_buildOverdueChecklist_iff] at hit
    obtain ⟨i, hi, it₀, hmem, hreq, hdone, rfl⟩ := hit
    have hkey : it₀.dateKey = nowDate.day - ((i : Int) + 1) := by
      unfold buildChecklistForDate at hmem
      simp only [List.mem_map] at hmem
      obtain ⟨it₁, h₁, rfl⟩ := hmem
      show it₁.dateKey = _
      rcases List.mem_append.mp h₁ with h₁ | h₁
      · rcases List.mem_append.mp h₁ with h₁ | h₁
        · rcases h' : s.weighDaysOfWeek with _ | l <;> rw [h'] at h₁
          · simp at h₁
          · by_cases hd : ((dow (nowDate.day - ((i : Int) + 1)) : ℚ) ∈ l)
            · simp only [hd, if_true, List.mem_singleton] at h₁
              subst h₁
              rfl
            · simp [hd] at h₁
        · rcases h' : s.injectionDayOfWeek with _ | _ | q <;> rw [h'] at h₁
          · simp at h₁
          · simp at h₁
          · by_cases hd : ((dow (nowDate.day - ((i : Int) + 1)) : ℚ) = q)
            · simp only [hd, if_true, List.mem_singleton] at h₁
              subst h₁
              rfl
            · simp [hd] at h₁
      · by_cases hd : (nowDate.day - ((i : Int) + 1)
            = computeMeasuresDueDateKey c s nowDate.day)
        · simp only [hd, if_true, List.mem_singleton] at h₁
          subst h₁
          exact hd.symm
        · simp [hd] at h₁
    refine ⟨rfl, hreq, hdone, rfl, ?_, ?_⟩
    · show it₀.dateKey < nowDate.day
      rw [hkey]
      omega
    · show nowDate.day - (daysBack : Int) ≤ it₀.dateKey
      rw [hkey]
      omega
  · unfold buildOverdueChecklist
    have := @List.sorted_mergeSort ChecklistItem
      (fun a b => decide (b.dateKey ≤ a.dateKey))
      (fun a b c hab hbc => by
        simp only [decide_eq_true_eq] at *
        omega)
      (fun a b => by
        simp only [Bool.or_eq_true, decide_eq_true_eq]
        omega)
      ((List.range daysBack).flatMap (fun (i : ℕ) =>
        ((buildChecklistForDate (nowDate.day - ((i : Int) + 1)) c s nowDate).filter
          (fun it => it.required && !it.done)).map
          (fun it => { it with status := ItemStatus.late, warnAfterCutoff := false })))
    exact this.imp (fun h => by simpa using h)

/-- Witness for C5 at a concrete snapshot (today day 8, a Monday): the single
overdue injection item of Saturday day 6 is reported, late, and the output is
sorted and reproducible. -/
theorem buildOverdueChecklist_spec_witness :
    (⟨.injection, 6, true, false, false, .late⟩
        ∈ buildOverdueChecklist 7 ⟨[1, 3, 5], [], [], none, []⟩
          ⟨.num 6, none, some [1, 3, 5], .absent⟩ ⟨8, 100⟩
      ↔ ∃ i : ℕ, i < 7 ∧
        ∃ it₀ ∈ buildChecklistForDate ((8 : Int) - ((i : Int) + 1))
            ⟨[1, 3, 5], [], [], none, []⟩
            ⟨.num 6, none, some [1, 3, 5], .absent⟩ ⟨8, 100⟩,
          it₀.required = true ∧ it₀.done = false
          ∧ (⟨.injection, 6, true, false, false, .late⟩ : ChecklistItem)
              = { it₀ with status := ItemStatus.late, warnAfterCutoff := false })
    ∧ (buildOverdueChecklist 7 ⟨[1, 3, 5], [], [], none, []⟩
        ⟨.num 6, none, some [1, 3, 5], .absent⟩ ⟨8, 100⟩).Pairwise
        (fun a b => b.dateKey ≤ a.dateKey) := by
  have h := buildOverdueChecklist_spec 7 ⟨[1, 3, 5], [], [], none, []⟩
    ⟨.num 6, none, some [1, 3, 5], .absent⟩ ⟨8, 100⟩
  exact ⟨h.1 _, h.2.2.1⟩

/-- The scheduled weigh-in days among `today, today-1, …`, most recent first,
scanned by `countStreakWeights` within its lookback window. -/
def schedDaysW (s : Settings) (today : Int) (fuel : Nat) : List Int :=
  ((List.range fuel).map (fun (i : ℕ) => today - (i : Int))).filter
    (fun x => decide ((dow x : ℚ) ∈ s.weighDaysOfWeek.getD DEFAULTS_weighDaysOfWeek))

lemma takeWhile_append_all {α : Type} {p : α → Bool} {l₁ l₂ : List α}
    (h : ∀ x ∈ l₁, p x = true) :
    (l₁ ++ l₂).takeWhile p = l₁ ++ l₂.takeWhile p := by
  induction l₁ with
  | nil => simp
  | cons x xs ih =>
    rw [List.cons_append, List.takeWhile_cons,
      if_pos (h x (List.mem_cons_self x xs)), List.cons_append,
      ih (fun y hy => h y (List.mem_cons_of_mem x hy))]

/-- The backward scan of `countStreakWeights` counts the longest prefix of
the scheduled-days-descending list all of whose days have a weight key. -/
lemma countStreakWeightsGo_eq (weighDows : List ℚ) (keys : List Int) :
    ∀ (n : Nat) (d : Int),
      countStreakWeightsGo weighDows keys d n
        = ((((List.range n).map (fun (i : ℕ) => d - (i : Int))).filter
            (fun x => decide ((dow x : ℚ) ∈ weighDows))).takeWhile
            (fun x => decide (x ∈ keys))).length := by
  intro n
  induction n with
  | zero =>
    intro d
    rfl
  | succ n ih =>
    intro d
    have hwin : (List.range (n + 1)).map (fun (i : ℕ) => d - (i : Int))
        = d :: (List.range n).map (fun (i : ℕ) => (d - 1) - (i : Int)) := by
      rw [List.range_succ_eq_map, List.map_cons, List.map_map]
      congr 1
      · norm_num
      · apply List.map_congr_left
        intro i _
        simp only [Function.comp_apply, Nat.succ_eq_add_one]
        push_cast
        ring
    rw [hwin, List.filter_cons]
    by_cases hsched : ((dow d : ℚ) ∈ weighDows)
    · rw [if_pos (by simpa using hsched), List.takeWhile_cons]
      by_cases hk : (d ∈ keys)
      · rw [if_pos (by simpa using hk)]
        simp only [List.length_cons]
        simp only [countStreakWeightsGo, if_pos hsched, if_pos hk]
        rw [ih (d - 1)]
      · rw [if_neg (by simpa using hk)]
        simp only [List.length_nil]
        simp only [countStreakWeightsGo, if_pos hsched, if_neg hk]
    · rw [if_neg (by simpa using hsched)]
      simp only [countStreakWeightsGo, if_neg hsched]
      exact ih (d - 1)

/-- `countStreakWeights` equals the length of the longest all-done prefix of
the scheduled days scanned most recent first. -/
lemma countStreakWeights_char (c : Cache) (s : Settings) (today : Int)
    (fuel : Nat) :
    countStreakWeights c s today fuel
      = ((schedDaysW s today fuel).takeWhile
          (fun x => decide (x ∈ c.weightKeys))).length :=
  countStreakWeightsGo_eq _ _ fuel today

/-- C3: the weigh-in streak scan is strictly backward and contiguous: it
counts the longest prefix of scheduled days (non-scheduled days skipped) that
all have a matching record; adding the record of the first missed scheduled
day (when the following scheduled day is also missed or the window ends)
raises the streak by exactly 1, and removing the record of the most recent
scheduled day drops it to 0. -/
theorem countStreakWeights_streak_spec (c : Cache) (s : Settings) (today : Int)
    (fuel : Nat) (D : Int) (don rest : List Int)
    (hdec : schedDaysW s today fuel = don ++ D :: rest)
    (hdon : ∀ x ∈ don, x ∈ c.weightKeys)
    (hmiss : D ∉ c.weightKeys)
    (hrest : rest.head? = none
      ∨ ∃ e, rest.head? = some e ∧ e ∉ c.weightKeys ∧ e ≠ D)
    (D₂ : Int) (hD₂ : (schedDaysW s today fuel).head? = some D₂) :
    countStreakWeights { c with weightKeys := D :: c.weightKeys } s today fuel
      = countStreakWeights c s today fuel + 1
    ∧ countStreakWeights { c with
        weightKeys := c.weightKeys.filter (fun k => decide (k ≠ D₂)) }
        s today fuel = 0
    ∧ countStreakWeights c s today fuel
      = ((schedDaysW s today fuel).takeWhile
          (fun x => decide (x ∈ c.weightKeys))).length := by
  have hold : countStreakWeights c s today fuel = don.length := by
    rw [countStreakWeights_char, hdec,
      takeWhile_append_all (fun x hx => decide_eq_true (hdon x hx)),
      List.takeWhile_cons, if_neg (by simpa using hmiss)]
    simp
  refine ⟨?_, ?_, countStreakWeights_char c s today fuel⟩
  · rw [countStreakWeights_char, hdec]
    show (((don ++ D :: rest)).takeWhile
      (fun x => decide (x ∈ D :: c.weightKeys))).length = _
    rw [takeWhile_append_all
      (fun x hx => decide_eq_true (List.mem_cons_of_mem D (hdon x hx))),
      List.takeWhile_cons, if_pos (by simp)]
    have htail : rest.takeWhile (fun x => decide (x ∈ D :: c.weightKeys)) = [] := by
      rcases hrest with hnil | ⟨e, he, henk, heD⟩
      · rw [List.head?_eq_none_iff.mp hnil]
        rfl
      · cases rest with
        | nil => rfl
        | cons e0 t =>
          have : e0 = e := by
            simpa using he
          subst this
          rw [List.takeWhile_cons, if_neg (by simp [henk, heD])]
    rw [htail, hold]
    simp
  · cases hsd : schedDaysW s today fuel with
    | nil =>
      rw [hsd] at hD₂
      cases hD₂
    | cons a tl =>
      have ha : a = D₂ := by
        rw [hsd] at hD₂
        simpa using hD₂
      subst ha
      rw [countStreakWeights_char, hsd, List.takeWhile_cons, if_neg (by simp)]
      rfl

/-- Witness for C3: weigh days Mon/Wed/Fri, today Friday day 5, lookback 8
days; records on days 5 and 3; the streak extends from 2 to 3 when day 1 is
recorded, and drops to 0 when day 5 is removed. -/
theorem countStreakWeights_streak_spec_witness :
    countStreakWeights ⟨1 :: [5, 3], [], [], none, []⟩
        ⟨.num 6, none, some [1, 3, 5], .absent⟩ 5 8
      = countStreakWeights ⟨[5, 3], [], [], none, []⟩
          ⟨.num 6, none, some [1, 3, 5], .absent⟩ 5 8 + 1
    ∧ countStreakWeights ⟨[5, 3].filter (fun k => decide (k ≠ 5)), [], [], none, []⟩
        ⟨.num 6, none, some [1, 3, 5], .absent⟩ 5 8 = 0
    ∧ countStreakWeights ⟨[5, 3], [], [], none, []⟩
        ⟨.num 6, none, some [1, 3, 5], .absent⟩ 5 8
      = ((schedDaysW ⟨.num 6, none, some [1, 3, 5], .absent⟩ 5 8).takeWhile
          (fun x => decide (x ∈ ([5, 3] : List Int)))).length :=
  countStreakWeights_streak_spec ⟨[5, 3], [], [], none, []⟩
    ⟨.num 6, none, some [1, 3, 5], .absent⟩ 5 8 1 [5, 3] [-2]
    (by decide) (by decide) (by decide)
    (Or.inr ⟨-2, by decide, by decide, by decide⟩) 5 (by decide)

/-- C8: with at least 2 injections and pairwise-distinct timestamps, the
recurring-high-symptom rule fires if and only if the two most recent
injections (`a` strictly newest, `b` strictly newest among the rest) both
have a nausea score of at least 7; no other injection affects the outcome. -/
theorem recurringHighNausea_spec (l : List InjectionRecord)
    (a b : InjectionRecord)
    (hnodup : (l.map (fun r => r.t)).Nodup)
    (ha : a ∈ l) (hamax : ∀ c ∈ l, c ≠ a → c.t < a.t)
    (hb : b ∈ l) (hab : b ≠ a)
    (hbmax : ∀ c ∈ l, c ≠ a → c ≠ b → c.t < b.t) :
    recurringHighNausea l = true ↔ 7 ≤ nauseaScore a ∧ 7 ≤ nauseaScore b := by
  have hlen2 : 2 ≤ l.length := by
    rcases List.mem_iff_get.mp ha with ⟨i, rfl⟩
    rcases List.mem_iff_get.mp hb with ⟨j, rfl⟩
    have hij : i ≠ j := fun h => hab (by rw [h])
    have := i.isLt
    have := j.isLt
    omega
  set le : InjectionRecord → InjectionRecord → Bool :=
    fun x y => decide (y.t ≤ x.t) with hle
  have hperm : (l.mergeSort le).Perm l := List.mergeSort_perm l le
  have hsortedlen : 2 ≤ (l.mergeSort le).length := by
    rw [List.length_mergeSort]
    exact hlen2
  have hsorted : (l.mergeSort le).Pairwise (fun x y => le x y = true) :=
    List.sorted_mergeSort
      (fun x y z hxy hyz => by
        simp only [hle, decide_eq_true_eq] at *
        omega)
      (fun x y => by
        simp only [hle, Bool.or_eq_true, decide_eq_true_eq]
        omega)
      l
  obtain ⟨x, y, rest, hxy⟩ : ∃ x y rest, l.mergeSort le = x :: y :: rest := by
    cases hml : l.mergeSort le with
    | nil => rw [hml] at hsortedlen; simp at hsortedlen
    | cons x t =>
      cases t with
      | nil => rw [hml] at hsortedlen; simp at hsortedlen
      | cons y rest => exact ⟨x, y, rest, rfl⟩
  have hmem_sort : ∀ z, z ∈ l.mergeSort le ↔ z ∈ l := fun z => hperm.mem_iff
  have hnodup_sort : ((l.mergeSort le).map (fun r => r.t)).Nodup :=
    (hperm.map (fun r => r.t)).nodup_iff.mpr hnodup
  rw [hxy] at hsorted hnodup_sort
  have hxmem : x ∈ l := (hmem_sort x).mp (by rw [hxy]; exact List.mem_cons_self _ _)
  have hymem : y ∈ l := (hmem_sort y).mp
    (by rw [hxy]; exact List.mem_cons_of_mem _ (List.mem_cons_self _ _))
  have hxty : x.t ≠ y.t := by
    simp only [List.map_cons, List.nodup_cons, List.mem_cons, List.mem_map] at hnodup_sort
    exact fun h => hnodup_sort.1 (Or.inl h)
  -- the head of the sort is the strictly newest record a
  have hxa : x = a := by
    by_contra hxa
    have hxlt : x.t < a.t := hamax x hxmem hxa
    have hain : a ∈ x :: y :: rest := by rw [← hxy]; exact (hmem_sort a).mpr ha
    rcases List.mem_cons.mp hain with rfl | hain
    · exact hxa rfl
    · have := (List.pairwise_cons.mp hsorted).1 a hain
      simp only [hle, decide_eq_true_eq] at this
      omega
  subst hxa
  -- the second element is the strictly-second-newest record b
  have hya : y ≠ x := fun h => hxty (by rw [h])
  have hyb : y = b := by
    by_contra hyb
    have hylt : y.t < b.t := hbmax y hymem hya hyb
    have hbin : b ∈ x :: y :: rest := by rw [← hxy]; exact (hmem_sort b).mpr hb
    rcases List.mem_cons.mp hbin with rfl | hbin
    · exact hab rfl
    rcases List.mem_cons.mp hbin with rfl | hbin
    · exact hyb rfl
    · have := (List.pairwise_cons.mp (List.pairwise_cons.mp hsorted).2).1 b hbin
      simp only [hle, decide_eq_true_eq] at this
      omega
  subst hyb
  unfold recurringHighNausea
  rw [hxy]
  simp

/-- Witness for C8: nausea scores 8, 9, 3 most-recent-first make the rule
fire (the two most recent are 8 and 9); reordering to 8, 3, 9 keeps only 8
and 3 as the two most recent and the rule does not fire. -/
theorem recurringHighNausea_spec_witness :
    recurringHighNausea [⟨3, .num 8⟩, ⟨2, .num 9⟩, ⟨1, .num 3⟩] = true
    ∧ recurringHighNausea [⟨3, .num 8⟩, ⟨2, .num 3⟩, ⟨1, .num 9⟩] = false := by
  constructor
  · exact (recurringHighNausea_spec
      [⟨3, .num 8⟩, ⟨2, .num 9⟩, ⟨1, .num 3⟩] ⟨3, .num 8⟩ ⟨2, .num 9⟩
      (by decide) (by decide) (by decide) (by decide) (by decide)
      (by decide)).mpr ⟨by decide, by decide⟩
  · have h := (recurringHighNausea_spec
      [⟨3, .num 8⟩, ⟨2, .num 3⟩, ⟨1, .num 9⟩] ⟨3, .num 8⟩ ⟨2, .num 3⟩
      (by decide) (by decide) (by decide) (by decide) (by decide)
      (by decide))
    rcases hv : recurringHighNausea [⟨3, .num 8⟩, ⟨2, .num 3⟩, ⟨1, .num 9⟩] with _ | _
    · rfl
    · have h2 := h.mp hv
      have : ¬ ((7 : ℚ) ≤ nauseaScore ⟨2, .num 3⟩) := by decide
      exact absurd h2.2 this

lemma dow_nonneg (d : Int) : 0 ≤ dow d := Int.emod_nonneg _ (by norm_num)

lemma dow_lt_seven (d : Int) : dow d < 7 := Int.emod_lt_of_pos _ (by norm_num)

/-- The JavaScript remainder of a nonnegative integer by 7 agrees with the
mathematical one. -/
lemma jsMod_intCast_seven (N : ℤ) (hN : 0 ≤ N) :
    jsMod (N : ℚ) 7 = ((N % 7 : ℤ) : ℚ) := by
  unfold jsMod qtrunc
  have h7 : (0 : ℚ) ≤ (N : ℚ) / 7 := by positivity
  rw [if_pos h7]
  have hfloor : ⌊(N : ℚ) / 7⌋ = N / 7 := by
    obtain ⟨q, r, hr0, hr7, hqr⟩ : ∃ q r : ℤ, 0 ≤ r ∧ r < 7 ∧ N = 7 * q + r :=
      ⟨N / 7, N % 7, Int.emod_nonneg _ (by norm_num),
        Int.emod_lt_of_pos _ (by norm_num), by omega⟩
    have hx : (N : ℚ) / 7 = (r : ℚ) / 7 + (q : ℚ) := by
      rw [hqr]
      push_cast
      ring
    have hq : N / 7 = q := by omega
    rw [hx, hq]
    rw [show ((q : ℤ) : ℚ) = ((q : ℤ) : ℚ) from rfl]
    rw [Int.floor_add_int]
    have : ⌊(r : ℚ) / 7⌋ = 0 := by
      rw [Int.floor_eq_zero_iff]
      constructor
      · positivity
      · rw [div_lt_one (by norm_num)]
        exact_mod_cast hr7
    rw [this]
    ring
  rw [hfloor]
  have : N % 7 = N - 7 * (N / 7) := by omega
  rw [this]
  push_cast
  ring

/-- Closed form of `computeNextScheduledDateTime` when the clamped injection
weekday is an integer `w`: jump `(w - weekday(from) + 7) mod 7` days forward
(bumped to 7 when that is zero and today's slot has already passed) and land
on the configured wall-clock slot. -/
lemma computeNextScheduledDateTime_eq (s : Settings) (fromDate : Instant)
    (w : ℤ) (hw : injDowOf s = (w : ℚ)) (hw0 : 0 ≤ w) :
    computeNextScheduledDateTime s fromDate
      = if (w - dow fromDate.day + 7) % 7 = 0
            ∧ (s.injectionTime.getD DEFAULTS_injectionTime).1 * 60
              + (s.injectionTime.getD DEFAULTS_injectionTime).2 ≤ fromDate.mins
        then ⟨fromDate.day + 7,
          (s.injectionTime.getD DEFAULTS_injectionTime).1 * 60
            + (s.injectionTime.getD DEFAULTS_injectionTime).2⟩
        else ⟨fromDate.day + (w - dow fromDate.day + 7) % 7,
          (s.injectionTime.getD DEFAULTS_injectionTime).1 * 60
            + (s.injectionTime.getD DEFAULTS_injectionTime).2⟩ := by
  have hcd0 := dow_nonneg fromDate.day
  have hcd7 := dow_lt_seven fromDate.day
  have hcast : (w : ℚ) - ((dow fromDate.day : ℤ) : ℚ) + 7
      = ((w - dow fromDate.day + 7 : ℤ) : ℚ) := by
    push_cast
    ring
  simp only [computeNextScheduledDateTime]
  rw [hw, hcast, jsMod_intCast_seven _ (by omega)]
  by_cases hc : ((w - dow fromDate.day + 7) % 7 = 0
      ∧ (s.injectionTime.getD DEFAULTS_injectionTime).1 * 60
        + (s.injectionTime.getD DEFAULTS_injectionTime).2 ≤ fromDate.mins)
  · have hc' : (((((w - dow fromDate.day + 7) % 7 : ℤ) : ℚ)) = 0
        ∧ (⟨fromDate.day,
            (s.injectionTime.getD DEFAULTS_injectionTime).1 * 60
              + (s.injectionTime.getD DEFAULTS_injectionTime).2⟩ : Instant).toMin
          ≤ fromDate.toMin) := by
      refine ⟨by exact_mod_cast hc.1, ?_⟩
      have := hc.2
      simp only [Instant.toMin]
      omega
    rw [if_pos hc', if_pos hc]
    have : ⌊(7 : ℚ)⌋ = 7 := by norm_num
    rw [this]
  · have hc' : ¬ (((((w - dow fromDate.day + 7) % 7 : ℤ) : ℚ)) = 0
        ∧ (⟨fromDate.day,
            (s.injectionTime.getD DEFAULTS_injectionTime).1 * 60
              + (s.injectionTime.getD DEFAULTS_injectionTime).2⟩ : Instant).toMin
          ≤ fromDate.toMin) := by
      intro hcontra
      apply hc
      refine ⟨by exact_mod_cast hcontra.1, ?_⟩
      have := hcontra.2
      simp only [Instant.toMin] at this
      omega
    rw [if_neg hc', if_neg hc, Int.floor_intCast]

/-- C6: for an integer weekday 0..6, a valid wall-clock time and an instant
with a well-formed minute field, `computeNextScheduledDateTime` returns the
smallest instant strictly after `fromDate` whose weekday is the configured
injection day and whose wall-clock time is the configured slot; if `fromDate`
is at or past today's slot on the right weekday, it rolls a full week. -/
theorem computeNextScheduledDateTime_spec (s : Settings) (fromDate : Instant)
    (w : ℤ) (hh mm : Int)
    (hwv : s.injectionDayOfWeek = .num ((w : ℤ) : ℚ))
    (hw0 : 0 ≤ w) (hw6 : w ≤ 6)
    (ht : s.injectionTime = some (hh, mm))
    (hhh : 0 ≤ hh) (hhh24 : hh < 24) (hmm : 0 ≤ mm) (hmm60 : mm < 60)
    (hfm0 : 0 ≤ fromDate.mins) (hfm : fromDate.mins < 1440) :
    dow (computeNextScheduledDateTime s fromDate).day = w
    ∧ (computeNextScheduledDateTime s fromDate).mins = hh * 60 + mm
    ∧ fromDate.toMin < (computeNextScheduledDateTime s fromDate).toMin
    ∧ ∀ T : Instant, T.mins = hh * 60 + mm → dow T.day = w →
        fromDate.toMin < T.toMin →
        (computeNextScheduledDateTime s fromDate).toMin ≤ T.toMin := by
  have hdw : injDowOf s = (w : ℚ) := by
    simp only [injDowOf, JsVal.nullishOr, clampNumber, hwv]
    rw [max_eq_right (by exact_mod_cast hw0), min_eq_right (by exact_mod_cast hw6)]
  have heq := computeNextScheduledDateTime_eq s fromDate w hdw hw0
  rw [ht] at heq
  simp only [Option.getD_some] at heq
  have hcd : dow fromDate.day = fromDate.day % 7 := rfl
  have hcd0 := dow_nonneg fromDate.day
  have hcd7 := dow_lt_seven fromDate.day
  by_cases hc : ((w - dow fromDate.day + 7) % 7 = 0 ∧ hh * 60 + mm ≤ fromDate.mins)
  · rw [if_pos hc] at heq
    rw [heq]
    refine ⟨?_, rfl, ?_, ?_⟩
    · show (fromDate.day + 7) % 7 = w
      omega
    · simp only [Instant.toMin]
      omega
    · intro T hT1 hT2 hT3
      have hT2' : T.day % 7 = w := hT2
      simp only [Instant.toMin] at hT3 ⊢
      rw [hT1] at hT3 ⊢
      omega
  · rw [if_neg hc] at heq
    rw [heq]
    refine ⟨?_, rfl, ?_, ?_⟩
    · show (fromDate.day + (w - dow fromDate.day + 7) % 7) % 7 = w
      omega
    · simp only [Instant.toMin]
      omega
    · intro T hT1 hT2 hT3
      have hT2' : T.day % 7 = w := hT2
      simp only [Instant.toMin] at hT3 ⊢
      rw [hT1] at hT3 ⊢
      omega

/-- Witness for C6: injection day Saturday (6) at 09:51, from Thursday day 4
at 10:00.  The result is Saturday day 6 at 09:51, which is minimal: the
following Saturday slot at day 13 is not earlier. -/
theorem computeNextScheduledDateTime_spec_witness :
    dow (computeNextScheduledDateTime
        ⟨.num 6, some (9, 51), some [1, 3, 5], .absent⟩ ⟨4, 600⟩).day = 6
    ∧ (computeNextScheduledDateTime
        ⟨.num 6, some (9, 51), some [1, 3, 5], .absent⟩ ⟨4, 600⟩).mins
      = 9 * 60 + 51
    ∧ (⟨4, 600⟩ : Instant).toMin < (computeNextScheduledDateTime
        ⟨.num 6, some (9, 51), some [1, 3, 5], .absent⟩ ⟨4, 600⟩).toMin
    ∧ (computeNextScheduledDateTime
        ⟨.num 6, some (9, 51), some [1, 3, 5], .absent⟩ ⟨4, 600⟩).toMin
      ≤ (⟨13, 591⟩ : Instant).toMin := by
  have h := computeNextScheduledDateTime_spec
    ⟨.num 6, some (9, 51), some [1, 3, 5], .absent⟩ ⟨4, 600⟩ 6 9 51
    (by norm_num) (by norm_num) (by norm_num) rfl
    (by norm_num) (by norm_num) (by norm_num) (by norm_num)
    (by norm_num) (by norm_num)
  exact ⟨h.1, h.2.1, h.2.2.1, h.2.2.2 ⟨13, 591⟩ rfl (by decide) (by decide)⟩

lemma injDowOf_bounds (s : Settings) : 0 ≤ injDowOf s ∧ injDowOf s ≤ 6 := by
  unfold injDowOf clampNumber
  cases h : s.injectionDayOfWeek.nullishOr DEFAULTS_injectionDayOfWeek with
  | absent => exact ⟨le_refl 0, by norm_num⟩
  | nan => exact ⟨le_refl 0, by norm_num⟩
  | num q => exact ⟨le_min (by norm_num) (le_max_left 0 q), min_le_left _ _⟩

/-- Every 7-day Monday-to-Sunday block contains a day of any integer weekday
`0 ≤ k < 7`, so the inner scan of the weekly computations finds it. -/
lemma findDayWithDow_isSome (weekStart : Int) (k : ℤ) (hk0 : 0 ≤ k)
    (hk7 : k < 7) : (findDayWithDow weekStart ((k : ℤ) : ℚ)).isSome = true := by
  unfold findDayWithDow
  rw [List.find?_isSome]
  have h0 : 0 ≤ (k - weekStart) % 7 := Int.emod_nonneg _ (by norm_num)
  have h7 : (k - weekStart) % 7 < 7 := Int.emod_lt_of_pos _ (by norm_num)
  refine ⟨weekStart + (k - weekStart) % 7, ?_, ?_⟩
  · rw [List.mem_map]
    refine ⟨((k - weekStart) % 7).toNat, ?_, ?_⟩
    · rw [List.mem_range]
      omega
    · omega
  · have hd : dow (weekStart + (k - weekStart) % 7) = k := by
      show (weekStart + (k - weekStart) % 7) % 7 = k
      omega
    rw [hd]
    simp

lemma round_pct_bounds (dp ep : Nat) (hle : dp ≤ ep) (hep : ep ≠ 0) :
    0 ≤ round (((dp : ℚ) / (ep : ℚ)) * 100)
    ∧ round (((dp : ℚ) / (ep : ℚ)) * 100) ≤ 100 := by
  have hepQ : (0 : ℚ) < (ep : ℚ) := by exact_mod_cast Nat.pos_of_ne_zero hep
  have hx0 : (0 : ℚ) ≤ (dp : ℚ) / (ep : ℚ) * 100 := by positivity
  have hx1 : (dp : ℚ) / (ep : ℚ) * 100 ≤ 100 := by
    have hq : (dp : ℚ) / (ep : ℚ) ≤ 1 :=
      (div_le_one hepQ).mpr (by exact_mod_cast hle)
    nlinarith
  constructor
  · rw [round_eq]
    exact Int.floor_nonneg.mpr (by linarith)
  · rw [round_eq]
    have hmono : ⌊(dp : ℚ) / (ep : ℚ) * 100 + 1 / 2⌋ ≤ ⌊(100 : ℚ) + 1 / 2⌋ :=
      Int.floor_le_floor (by linarith)
    have h100 : ⌊(100 : ℚ) + 1 / 2⌋ = 100 := by
      rw [show (100 : ℚ) + 1 / 2 = 1 / 2 + ((100 : ℤ) : ℚ) by norm_num,
        Int.floor_add_int,
        Int.floor_eq_zero_iff.mpr (Set.mem_Ico.mpr ⟨by norm_num, by norm_num⟩)]
      norm_num
    omega

lemma round_pct_eq_100_iff (dp ep : Nat) (hle : dp ≤ ep) (hep0 : 0 < ep)
    (hsmall : ep ≤ 9) :
    round (((dp : ℚ) / (ep : ℚ)) * 100) = 100 ↔ dp = ep := by
  have hepQ : (0 : ℚ) < (ep : ℚ) := by exact_mod_cast hep0
  constructor
  · intro h
    by_contra hne
    have hdplt : dp < ep := lt_of_le_of_ne hle hne
    have h1 : (dp : ℚ) + 1 ≤ (ep : ℚ) := by exact_mod_cast hdplt
    have h9 : (ep : ℚ) ≤ 9 := by exact_mod_cast hsmall
    have hx : (dp : ℚ) / (ep : ℚ) * 100 + 1 / 2 < 100 := by
      have hlt : (dp : ℚ) * 100 / (ep : ℚ) < 199 / 2 := by
        rw [div_lt_iff₀ hepQ]
        nlinarith
      have heq2 : (dp : ℚ) / (ep : ℚ) * 100 = (dp : ℚ) * 100 / (ep : ℚ) := by
        ring
      rw [heq2]
      linarith
    have hlt : round (((dp : ℚ) / (ep : ℚ)) * 100) < 100 := by
      rw [round_eq]
      exact Int.floor_lt.mpr (by exact_mod_cast hx)
    omega
  · intro h
    subst h
    have : (dp : ℚ) / (dp : ℚ) * 100 = ((100 : ℤ) : ℚ) := by
      rw [div_self (ne_of_gt hepQ)]
      norm_num
    rw [this, round_intCast]

/-- C1: the weekly adherence computation scores each expected weigh-in day at
1 point and the expected injection at 2 points; its percentage always lies in
`0..100`; it is 0 (defined, not NaN) when nothing is expected; and — for any
settings whose clamped injection weekday is an integer, as the data-model
invariant guarantees — it is 100 exactly when every expected weigh-in day has
a matching weight record and the week's injection day has a matching
injection record. -/
theorem weeklyConsistency_adherence_spec (cache : Cache) (s : Settings)
    (weekOffset : ℚ) (today : Int) :
    (weeklyConsistency cache s weekOffset today).expectedPoints
      = (weeklyConsistency cache s weekOffset today).expectedWeights
        + 2 * (weeklyConsistency cache s weekOffset today).expectedInj
    ∧ (weeklyConsistency cache s weekOffset today).donePoints
      = (weeklyConsistency cache s weekOffset today).doneWeights
        + 2 * (weeklyConsistency cache s weekOffset today).doneInj
    ∧ 0 ≤ (weeklyConsistency cache s weekOffset today).pct
    ∧ (weeklyConsistency cache s weekOffset today).pct ≤ 100
    ∧ ((weeklyConsistency cache s weekOffset today).expectedPoints = 0 →
        (weeklyConsistency cache s weekOffset today).pct = 0)
    ∧ ((∃ k : ℤ, injDowOf s = (k : ℚ)) →
        ((weeklyConsistency cache s weekOffset today).pct = 100 ↔
          ((∀ d ∈ (weeklyConsistency cache s weekOffset today).expectedWeighKeys,
              d ∈ cache.weightKeys)
            ∧ ∀ j, (weeklyConsistency cache s weekOffset today).injKey = some j →
                j ∈ cache.injectionKeys))) := by
  set r := weeklyConsistency cache s weekOffset today with hr
  have h1 : r.expectedWeights = r.expectedWeighKeys.length := rfl
  have h2 : r.doneWeights
      = (r.expectedWeighKeys.filter (fun k => decide (k ∈ cache.weightKeys))).length :=
    rfl
  have h3 : r.injKey = findDayWithDow
      (startOfWeekMonday today - 7 * Max.max 0 ⌊weekOffset⌋) (injDowOf s) := rfl
  have h4 : r.expectedInj = if r.injKey.isSome then 1 else 0 := rfl
  have h5 : r.doneInj = (match r.injKey with
      | some k => if k ∈ cache.injectionKeys then 1 else 0
      | none => 0) := rfl
  have h6 : r.expectedPoints
      = r.expectedWeights + (if r.expectedInj ≠ 0 then 2 else 0) := rfl
  have h7 : r.donePoints
      = r.doneWeights + (if r.doneInj ≠ 0 then 2 else 0) := rfl
  have h8 : r.pct = if r.expectedPoints ≠ 0 then
      round (((r.donePoints : ℚ) / (r.expectedPoints : ℚ)) * 100) else 0 := rfl
  have hE7 : r.expectedWeighKeys.length ≤ 7 := by
    have hEdef : r.expectedWeighKeys
        = ((List.range 7).map (fun (i : ℕ) =>
            (startOfWeekMonday today - 7 * Max.max 0 ⌊weekOffset⌋) + (i : Int))).filter
          (fun d => decide ((dow d : ℚ) ∈ s.weighDaysOfWeek.getD DEFAULTS_weighDaysOfWeek)) :=
      rfl
    have hfl := List.length_filter_le
      (fun d => decide ((dow d : ℚ) ∈ s.weighDaysOfWeek.getD DEFAULTS_weighDaysOfWeek))
      ((List.range 7).map (fun (i : ℕ) =>
        (startOfWeekMonday today - 7 * Max.max 0 ⌊weekOffset⌋) + (i : Int)))
    rw [hEdef]
    simpa using hfl
  have hdwle : r.doneWeights ≤ r.expectedWeights := by
    rw [h1, h2]
    exact List.length_filter_le _ _
  have hei01 : r.expectedInj = 0 ∨ r.expectedInj = 1 := by
    rw [h4]
    split
    · right
      rfl
    · left
      rfl
  have hdi01 : r.doneInj = 0 ∨ r.doneInj = 1 := by
    rw [h5]
    rcases r.injKey with _ | k
    · left
      rfl
    · dsimp only
      split
      · right
        rfl
      · left
        rfl
  have hdile : r.doneInj ≤ r.expectedInj := by
    rw [h4, h5]
    cases hik : r.injKey with
    | none => simp
    | some k =>
      simp only [Option.isSome_some, if_true]
      split <;> omega
  have hA : r.expectedPoints = r.expectedWeights + 2 * r.expectedInj := by
    rcases hei01 with h | h <;> rw [h6, h] <;> norm_num
  have hB : r.donePoints = r.doneWeights + 2 * r.doneInj := by
    rcases hdi01 with h | h <;> rw [h7, h] <;> norm_num
  have hdple : r.donePoints ≤ r.expectedPoints := by
    rw [hA, hB]
    omega
  have hsome : (∃ k : ℤ, injDowOf s = (k : ℚ)) → r.injKey.isSome = true := by
    rintro ⟨k, hk⟩
    have hb := injDowOf_bounds s
    rw [hk] at hb
    have hk0 : 0 ≤ k := by exact_mod_cast hb.1
    have hk6 : k ≤ 6 := by exact_mod_cast hb.2
    rw [h3, hk]
    exact findDayWithDow_isSome _ k hk0 (by omega)
  have hiff : (∃ k : ℤ, injDowOf s = (k : ℚ)) →
      (r.pct = 100 ↔
        ((∀ d ∈ r.expectedWeighKeys, d ∈ cache.weightKeys)
          ∧ ∀ j, r.injKey = some j → j ∈ cache.injectionKeys)) := by
    intro hex
    obtain ⟨j, hj⟩ := Option.isSome_iff_exists.mp (hsome hex)
    have hei : r.expectedInj = 1 := by
      rw [h4, hj]
      rfl
    have hep2 : r.expectedPoints = r.expectedWeights + 2 := by
      rw [hA, hei]
    have heppos : 0 < r.expectedPoints := by
      rw [hep2]
      omega
    have hep9 : r.expectedPoints ≤ 9 := by
      rw [hep2, h1]
      omega
    have hpct : r.pct
        = round (((r.donePoints : ℚ) / (r.expectedPoints : ℚ)) * 100) := by
      rw [h8, if_pos (by omega)]
    rw [hpct, round_pct_eq_100_iff _ _ hdple heppos hep9]
    constructor
    · intro hdpep
      have hdi1 : r.doneInj = 1 := by
        rcases hdi01 with h | h
        · exfalso
          rw [hB, hA, h, hei] at hdpep
          omega
        · exact h
      have hdwew : r.doneWeights = r.expectedWeights := by
        rw [hB, hA, hdi1, hei] at hdpep
        omega
      constructor
      · intro d hd
        have hcp : (r.expectedWeighKeys.countP
            (fun k => decide (k ∈ cache.weightKeys))) = r.expectedWeighKeys.length := by
          rw [List.countP_eq_length_filter, ← h2, ← h1, hdwew]
        exact of_decide_eq_true (List.countP_eq_length.mp hcp d hd)
      · intro j2 hj2
        rw [hj] at hj2
        injection hj2 with hjj
        subst hjj
        rw [h5, hj] at hdi1
        by_cases hmem : j ∈ cache.injectionKeys
        · exact hmem
        · simp [hmem] at hdi1
    · rintro ⟨hall, hinj⟩
      have hdw : r.doneWeights = r.expectedWeights := by
        rw [h1, h2, ← List.countP_eq_length_filter]
        exact List.countP_eq_length.mpr (fun a ha => decide_eq_true (hall a ha))
      have hdi1 : r.doneInj = 1 := by
        rw [h5, hj]
        have := hinj j hj
        simp [this]
      rw [hA, hB, hdw, hdi1, hei]
  by_cases hep : r.expectedPoints = 0
  · have hp : r.pct = 0 := by
      rw [h8, if_neg (by simp [hep])]
    exact ⟨hA, hB, by rw [hp], by rw [hp]; norm_num, fun _ => hp, hiff⟩
  · have hpct : r.pct
        = round (((r.donePoints : ℚ) / (r.expectedPoints : ℚ)) * 100) := by
      rw [h8, if_pos hep]
    have hbounds := round_pct_bounds r.donePoints r.expectedPoints hdple hep
    exact ⟨hA, hB, by rw [hpct]; exact hbounds.1, by rw [hpct]; exact hbounds.2,
      fun h => absurd h hep, hiff⟩

/-- Witness for C1 at a concrete snapshot: default schedule, today Thursday
day 4, weight records on Monday/Wednesday/Friday and an injection on
Saturday, giving a 100 percent week. -/
theorem weeklyConsistency_adherence_spec_witness :
    0 ≤ (weeklyConsistency ⟨[1, 3, 5], [6], [], none, []⟩
        ⟨.num 6, none, some [1, 3, 5], .absent⟩ 0 4).pct
    ∧ (weeklyConsistency ⟨[1, 3, 5], [6], [], none, []⟩
        ⟨.num 6, none, some [1, 3, 5], .absent⟩ 0 4).pct ≤ 100
    ∧ ((weeklyConsistency ⟨[1, 3, 5], [6], [], none, []⟩
          ⟨.num 6, none, some [1, 3, 5], .absent⟩ 0 4).pct = 100 ↔
        ((∀ d ∈ (weeklyConsistency ⟨[1, 3, 5], [6], [], none, []⟩
              ⟨.num 6, none, some [1, 3, 5], .absent⟩ 0 4).expectedWeighKeys,
            d ∈ ([1, 3, 5] : List Int))
          ∧ ∀ j, (weeklyConsistency ⟨[1, 3, 5], [6], [], none, []⟩
              ⟨.num 6, none, some [1, 3, 5], .absent⟩ 0 4).injKey = some j →
              j ∈ ([6] : List Int))) := by
  have h := weeklyConsistency_adherence_spec ⟨[1, 3, 5], [6], [], none, []⟩
    ⟨.num 6, none, some [1, 3, 5], .absent⟩ 0 4
  exact ⟨h.2.2.1, h.2.2.2.1, h.2.2.2.2.2 ⟨6, by decide⟩⟩

/-- The non-integer rational one half, as an explicit normal form. -/
def half : ℚ := Rat.mk' 1 2 (by norm_num) (by norm_num)

/-- Counterexample to C9 as stated: a numeric but non-integer
`injectionDayOfWeek` of one half passes `clampNumber` unchanged (it lies in
`0..6` but is no weekday index), and the weekly consistency computation, the
injection streak and the range adherence then fail to locate any injection
day of the week: with every day of the current week carrying an injection
key, the streak is still 0 and the expected-injection counts are 0. -/
theorem injectionDow_clamp_cex :
    injDowOf ⟨.num half, none, some [], .absent⟩ = half
    ∧ (¬ ∃ k : ℤ, half = (k : ℚ))
    ∧ (weeklyConsistency ⟨[], [-6, -5, -4, -3, -2, -1, 0], [], none, []⟩
        ⟨.num half, none, some [], .absent⟩ 0 0).expectedInj = 0
    ∧ countStreakInjections ⟨[], [-6, -5, -4, -3, -2, -1, 0], [], none, []⟩
        ⟨.num half, none, some [], .absent⟩ 0 52 = 0
    ∧ (computeScheduleAdherenceForRange 7 ⟨.num half, none, some [], .absent⟩
        ⟨[], []⟩ 0).expectedInj = 0 := by
  refine ⟨by decide, ?_, by decide, by decide, by decide⟩
  rintro ⟨k, hk⟩
  have hd := congrArg Rat.den hk
  rw [Rat.den_intCast] at hd
  have hhalf : half.den = 2 := by decide
  omega

/-- C9 (amended): every reader of the configured injection weekday clamps it
with `clampNumber` into `0..6`, sending a missing value to the default 6 and
a non-numeric value to 0; whenever the clamped value is an integer — in
particular for missing or non-numeric settings — it is a valid weekday index
and the week's injection day is always located: the 7-day scan used by
`countStreakInjections` and the weekly consistency finds a day, the weekly
expected injection count is 1, a 7-day adherence range expects an injection,
and the next scheduled occurrence lands on that weekday. -/
theorem injectionDow_clamp_spec (s : Settings) (weekStart : Int)
    (cache : Cache) (weekOffset : ℚ) (today : Int) (data : AdherenceData)
    (fromDate : Instant) :
    0 ≤ injDowOf s ∧ injDowOf s ≤ 6
    ∧ (s.injectionDayOfWeek = .absent → injDowOf s = 6)
    ∧ (s.injectionDayOfWeek = .nan → injDowOf s = 0)
    ∧ (∀ k : ℤ, injDowOf s = (k : ℚ) →
        (findDayWithDow weekStart (injDowOf s)).isSome = true
        ∧ (weeklyConsistency cache s weekOffset today).expectedInj = 1
        ∧ 1 ≤ (computeScheduleAdherenceForRange 7 s data today).expectedInj
        ∧ dow (computeNextScheduledDateTime s fromDate).day = k) := by
  obtain ⟨hb0, hb6⟩ := injDowOf_bounds s
  refine ⟨hb0, hb6, ?_, ?_, ?_⟩
  · intro h
    simp [injDowOf, JsVal.nullishOr, clampNumber, h, DEFAULTS_injectionDayOfWeek]
  · intro h
    simp [injDowOf, JsVal.nullishOr, clampNumber, h]
  · intro k hk
    have hk0 : 0 ≤ k := by
      rw [hk] at hb0
      exact_mod_cast hb0
    have hk6 : k ≤ 6 := by
      rw [hk] at hb6
      exact_mod_cast hb6
    refine ⟨?_, ?_, ?_, ?_⟩
    · rw [hk]
      exact findDayWithDow_isSome _ k hk0 (by omega)
    · have h4 : (weeklyConsistency cache s weekOffset today).expectedInj
          = if (findDayWithDow
              (startOfWeekMonday today - 7 * Max.max 0 ⌊weekOffset⌋)
              (injDowOf s)).isSome then 1 else 0 := rfl
      rw [h4, hk, if_pos]
      rw [findDayWithDow_isSome _ k hk0 (by omega)]
    · have hdef : (computeScheduleAdherenceForRange 7 s data today).expectedInj
          = (((List.range 7).map (fun (i : ℕ) =>
              (today - (Max.max 1 ((7 : ℕ) : Int) - 1)) + (i : Int))).filter
              (fun d => decide ((dow d : ℚ) = injDowOf s))).length := rfl
      rw [hdef]
      have h0 : 0 ≤ (k - (today - (Max.max 1 ((7 : ℕ) : Int) - 1))) % 7 :=
        Int.emod_nonneg _ (by norm_num)
      have h7 : (k - (today - (Max.max 1 ((7 : ℕ) : Int) - 1))) % 7 < 7 :=
        Int.emod_lt_of_pos _ (by norm_num)
      have hmem : ((today - (Max.max 1 ((7 : ℕ) : Int) - 1))
            + (k - (today - (Max.max 1 ((7 : ℕ) : Int) - 1))) % 7)
          ∈ (List.range 7).map (fun (i : ℕ) =>
            (today - (Max.max 1 ((7 : ℕ) : Int) - 1)) + (i : Int)) := by
        rw [List.mem_map]
        refine ⟨((k - (today - (Max.max 1 ((7 : ℕ) : Int) - 1))) % 7).toNat,
          ?_, ?_⟩
        · rw [List.mem_range]
          omega
        · omega
      have hpred : decide ((dow ((today - (Max.max 1 ((7 : ℕ) : Int) - 1))
            + (k - (today - (Max.max 1 ((7 : ℕ) : Int) - 1))) % 7) : ℚ)
            = injDowOf s) = true := by
        rw [hk]
        have hd : dow ((today - (Max.max 1 ((7 : ℕ) : Int) - 1))
            + (k - (today - (Max.max 1 ((7 : ℕ) : Int) - 1))) % 7) = k := by
          show ((today - (Max.max 1 ((7 : ℕ) : Int) - 1))
            + (k - (today - (Max.max 1 ((7 : ℕ) : Int) - 1))) % 7) % 7 = k
          omega
        rw [hd]
        simp
      have hne : ((List.range 7).map (fun (i : ℕ) =>
            (today - (Max.max 1 ((7 : ℕ) : Int) - 1)) + (i : Int))).filter
            (fun d => decide ((dow d : ℚ) = injDowOf s)) ≠ [] := by
        intro hnil
        exact absurd hpred (by simpa using List.filter_eq_nil_iff.mp hnil _ hmem)
      have := List.length_pos.mpr hne
      omega
    · have heq := computeNextScheduledDateTime_eq s fromDate k hk hk0
      have hcd0 := dow_nonneg fromDate.day
      have hcd7 := dow_lt_seven fromDate.day
      have hcd : dow fromDate.day = fromDate.day % 7 := rfl
      by_cases hc : ((k - dow fromDate.day + 7) % 7 = 0
          ∧ (s.injectionTime.getD DEFAULTS_injectionTime).1 * 60
            + (s.injectionTime.getD DEFAULTS_injectionTime).2 ≤ fromDate.mins)
      · rw [if_pos hc] at heq
        rw [heq]
        show (fromDate.day + 7) % 7 = k
        omega
      · rw [if_neg hc] at heq
        rw [heq]
        show (fromDate.day + (k - dow fromDate.day + 7) % 7) % 7 = k
        omega

/-- Witness for the amended C9 at a concrete malformed setting: a non-numeric
`injectionDayOfWeek` clamps to 0 (Sunday), a valid weekday, and all four
computations locate the injection day. -/
theorem injectionDow_clamp_spec_witness :
    injDowOf ⟨.nan, none, none, .absent⟩ = 0
    ∧ (findDayWithDow 0 (injDowOf ⟨.nan, none, none, .absent⟩)).isSome = true
    ∧ (weeklyConsistency ⟨[], [], [], none, []⟩ ⟨.nan, none, none, .absent⟩
        0 0).expectedInj = 1
    ∧ 1 ≤ (computeScheduleAdherenceForRange 7 ⟨.nan, none, none, .absent⟩
        ⟨[], []⟩ 0).expectedInj
    ∧ dow (computeNextScheduledDateTime ⟨.nan, none, none, .absent⟩
        ⟨0, 0⟩).day = 0 := by
  have h := injectionDow_clamp_spec ⟨.nan, none, none, .absent⟩ 0
    ⟨[], [], [], none, []⟩ 0 0 ⟨[], []⟩ ⟨0, 0⟩
  have hk := h.2.2.2.2 0 (by decide)
  exact ⟨h.2.2.2.1 rfl, hk.1, hk.2.1, hk.2.2.1, hk.2.2.2⟩

end PesoMed
